import Mathlib

/-!
# Verification of `mpl_interactions/generic.py`

A shallow embedding of the interactive pan/zoom/segmentation module:

* `zoom_fun` — the scroll handler closed over by `zoom_factory` (lines 142-213);
* `panhandler_*` — the pan gesture state machine of class `panhandler`
  (lines 215-269), together with a small model of the matplotlib canvas
  callback registry (connect/disconnect of `motion_notify_event` listeners);
* `init_overlay`, `onselect` — the mask/overlay store of class
  `image_segmenter` (lines 277-364), with numpy fancy assignment
  `arr[bool_mask] = v` rendered as a pointwise update and Python/numpy
  integer indexing (negative indices, IndexError) rendered by `pyGet`.
  The paint error path is kept: the mask assignment of line 360 executes
  before the color lookup of line 361 can raise, so a raising paint still
  mutates the mask, and a history (`run_selects`) continues past a raised
  callback — an exception is fatal only for the operation that raised it;
* `containsQ` — the polygon rasterizer.  Its implementation is delegated by
  the source to `matplotlib.path.Path.contains_points(..., radius=0)`, whose
  code is not part of this repository, so it is modelled from the spec
  (see its doc comment).

Real-number data (axis limits, event coordinates, mask entries, RGBA
channels) is embedded as `ℚ`.
-/

namespace MplInteractions

/-! ## Zoom controller (`zoom_factory`, lines 142-213) -/

/-- A pair of axis limits `(lo, hi)` in data coordinates, as returned by
`ax.get_xlim()` / `ax.get_ylim()`. -/
structure Limits where
  lo : ℚ
  hi : ℚ
deriving DecidableEq, Repr

/-- `limits_to_range` (lines 158-159): `lim[1] - lim[0]`. -/
def limits_to_range (l : Limits) : ℚ := l.hi - l.lo

/-- The visible data-space rectangle of an axes: its x-limits and y-limits. -/
structure Viewport where
  xlim : Limits
  ylim : Limits
deriving DecidableEq, Repr

/-- A scroll event as consumed by `zoom_fun`: `event.button` is the scroll
direction string (`'up'`, `'down'`, or anything else), and
`event.xdata` / `event.ydata` are the cursor's data coordinates.  Only
events with non-`None` data coordinates (cursor over the axes) are
modelled. -/
structure ScrollEvent where
  button : String
  xdata : ℚ
  ydata : ℚ

/-- `zoom_fun` (lines 170-201): one scroll-zoom step.  `orig` is the home
viewport captured at `zoom_factory` construction (lines 165-169), `cur` the
axes' current limits at event time, `base_scale` the configured zoom rate.
Returns the limits passed to `ax.set_xlim` / `ax.set_ylim`. -/
def zoom_fun (base_scale : ℚ) (orig : Viewport) (cur : Viewport) (ev : ScrollEvent) :
    Viewport :=
  let orig_yrange := limits_to_range orig.ylim
  let orig_xrange := limits_to_range orig.xlim
  let orig_center : ℚ × ℚ :=
    ((orig.xlim.lo + orig.xlim.hi) / 2, (orig.ylim.lo + orig.ylim.hi) / 2)
  let scale_factor : ℚ :=
    if ev.button = "up" then base_scale
    else if ev.button = "down" then 1 / base_scale
    else 1
  let new_xlim : Limits :=
    ⟨ev.xdata - (ev.xdata - cur.xlim.lo) / scale_factor,
     ev.xdata + (cur.xlim.hi - ev.xdata) / scale_factor⟩
  let new_ylim : Limits :=
    ⟨ev.ydata - (ev.ydata - cur.ylim.lo) / scale_factor,
     ev.ydata + (cur.ylim.hi - ev.ydata) / scale_factor⟩
  let new_yrange := limits_to_range new_ylim
  let new_xrange := limits_to_range new_xlim
  let new_ylim : Limits :=
    if |new_yrange| > |orig_yrange| then
      ⟨orig_center.2 - new_yrange / 2, orig_center.2 + new_yrange / 2⟩
    else new_ylim
  let new_xlim : Limits :=
    if |new_xrange| > |orig_xrange| then
      ⟨orig_center.1 - new_xrange / 2, orig_center.1 + new_xrange / 2⟩
    else new_xlim
  ⟨new_xlim, new_ylim⟩

/-- C1.  The zoom handler's clamp recenters an over-wide axis on the home
center but keeps the *grown* range (lines 196-199 assign `new_yrange`
rather than the original extent), so a single zoom-out from the home
viewport already yields a viewport strictly wider and taller than the Home
Rectangle: with `base_scale = 11/10`, home `(0,1)×(0,1)`, one `'down'`
scroll at the center produces limits `(-1/20, 21/20)` on both axes, of
range `11/10 > 1`. -/
theorem C1_zoom_out_exceeds_home :
    zoom_fun (11/10) ⟨⟨0, 1⟩, ⟨0, 1⟩⟩ ⟨⟨0, 1⟩, ⟨0, 1⟩⟩ ⟨"down", 1/2, 1/2⟩ =
      ⟨⟨-1/20, 21/20⟩, ⟨-1/20, 21/20⟩⟩ ∧
    limits_to_range
        (zoom_fun (11/10) ⟨⟨0, 1⟩, ⟨0, 1⟩⟩ ⟨⟨0, 1⟩, ⟨0, 1⟩⟩ ⟨"down", 1/2, 1/2⟩).xlim >
      limits_to_range (⟨0, 1⟩ : Limits) := by
  have h : zoom_fun (11/10) ⟨⟨0, 1⟩, ⟨0, 1⟩⟩ ⟨⟨0, 1⟩, ⟨0, 1⟩⟩ ⟨"down", 1/2, 1/2⟩ =
      ⟨⟨-1/20, 21/20⟩, ⟨-1/20, 21/20⟩⟩ := by
    norm_num [zoom_fun, limits_to_range, abs_of_nonneg,
      show ¬("down":String) = "up" from by decide]
  refine ⟨h, ?_⟩
  rw [h]
  norm_num [limits_to_range]

/-- C7 counterexample.  An unrecognized scroll direction gets the identity
scale factor, but the handler is not a pointwise no-op: when the current
x-range already exceeds the home x-range (a state the unclamped zoom-out of
C1 makes reachable) and the viewport is off the home center, the clamp at
lines 198-199 recenters the axis, changing the limits. -/
theorem C7_counterexample_recenter_on_noise :
    zoom_fun (11/10) ⟨⟨0, 1⟩, ⟨0, 1⟩⟩ ⟨⟨0, 11/5⟩, ⟨0, 1⟩⟩ ⟨"left", 1/2, 1/2⟩ ≠
      ⟨⟨0, 11/5⟩, ⟨0, 1⟩⟩ := by
  norm_num [zoom_fun, limits_to_range, abs_of_nonneg,
    show ¬("left":String) = "up" from by decide,
    show ¬("left":String) = "down" from by decide]

/-- C7 (amended).  A scroll event whose direction is neither `'up'` nor
`'down'` gets scale factor 1 and leaves the viewport unchanged, provided
neither current axis range exceeds the corresponding home range in absolute
value; no error is raised (the handler is total). -/
theorem C7_unrecognized_direction_noop (base_scale : ℚ) (orig cur : Viewport)
    (ev : ScrollEvent) (hup : ev.button ≠ "up") (hdown : ev.button ≠ "down")
    (hx : |limits_to_range cur.xlim| ≤ |limits_to_range orig.xlim|)
    (hy : |limits_to_range cur.ylim| ≤ |limits_to_range orig.ylim|) :
    zoom_fun base_scale orig cur ev = cur := by
  obtain ⟨⟨xlo, xhi⟩, ⟨ylo, yhi⟩⟩ := cur
  simp only [limits_to_range] at hx hy
  simp only [zoom_fun, limits_to_range, if_neg hup, if_neg hdown, div_one]
  have ex : ev.xdata + (xhi - ev.xdata) - (ev.xdata - (ev.xdata - xlo)) = xhi - xlo := by ring
  have ey : ev.ydata + (yhi - ev.ydata) - (ev.ydata - (ev.ydata - ylo)) = yhi - ylo := by ring
  rw [ex, ey, if_neg (not_lt.2 hy), if_neg (not_lt.2 hx)]
  simp only [Viewport.mk.injEq, Limits.mk.injEq]
  refine ⟨⟨by ring, by ring⟩, by ring, by ring⟩

/-- Witness for `C7_unrecognized_direction_noop` at a concrete input. -/
theorem C7_unrecognized_direction_noop_witness :
    zoom_fun (11/10) ⟨⟨0, 1⟩, ⟨0, 1⟩⟩ ⟨⟨0, 1⟩, ⟨2, 3⟩⟩ ⟨"left", 1/2, 1/2⟩ =
      ⟨⟨0, 1⟩, ⟨2, 3⟩⟩ :=
  C7_unrecognized_direction_noop (11/10) ⟨⟨0, 1⟩, ⟨0, 1⟩⟩ ⟨⟨0, 1⟩, ⟨2, 3⟩⟩
    ⟨"left", 1/2, 1/2⟩ (by decide) (by decide)
    (by norm_num [limits_to_range, abs_of_nonneg])
    (by norm_num [limits_to_range, abs_of_nonneg])

/-! ## Pan controller (`class panhandler`, lines 215-269)

The matplotlib canvas callback registry is modelled by the part the claims
observe: a monotone callback-id counter shared by all event kinds, and the
set of currently connected `motion_notify_event` listeners. -/

/-- The canvas callback registry: `nextCid` is the next callback id handed
out by `mpl_connect`, `motion` the ids of currently connected
`motion_notify_event` listeners (the press/release listeners of other event
kinds are not tracked, but their connection consumes ids). -/
structure PanCanvas where
  nextCid : ℕ
  motion : List ℕ
deriving DecidableEq, Repr

/-- `fig.canvas.mpl_connect('motion_notify_event', ...)`: registers a
listener under a fresh callback id and returns the id. -/
def mpl_connect_motion (c : PanCanvas) : PanCanvas × ℕ :=
  (⟨c.nextCid + 1, c.motion ++ [c.nextCid]⟩, c.nextCid)

/-- `fig.canvas.mpl_disconnect(cid)`: removes the listener with that id;
a no-op when the id is not registered. -/
def mpl_disconnect_motion (c : PanCanvas) (cid : ℕ) : PanCanvas :=
  ⟨c.nextCid, c.motion.erase cid⟩

/-- The state of a `panhandler` instance: its canvas, the configured pan
`button`, `_id_drag` (`Option` models Python `None`), and the indices of
the axes captured in `_xypress`. -/
structure PanState where
  canvas : PanCanvas
  button : ℤ
  id_drag : Option ℕ
  xypress : List ℕ
deriving DecidableEq, Repr

/-- A button press/release event as seen by `panhandler`: the mouse button
and, per axes of the figure, whether
`x is not None and y is not None and a.in_axes(event) and a.get_navigate()
and a.can_pan()` holds (line 246-247). -/
structure PanEvent where
  button : ℤ
  pannable : List Bool

/-- `panhandler.__init__` (lines 224-229): connects the press and release
handlers (consuming two callback ids of the canvas registry) and sets
`_id_drag = None`.  `_xypress` is not assigned in `__init__`; it is first
assigned (to `[]`) by `_cancel_action` or `press` before any read, so the
model starts it at `[]`. -/
def panhandler_init (c : PanCanvas) (button : ℤ) : PanState :=
  ⟨⟨c.nextCid + 2, c.motion⟩, button, none, []⟩

/-- `panhandler._cancel_action` (lines 231-235): clears `_xypress` and,
`if self._id_drag:` (Python truthiness — `None` and `0` are falsy),
disconnects it and resets it to `None`. -/
def panhandler_cancel_action (s : PanState) : PanState :=
  let s := { s with xypress := [] }
  match s.id_drag with
  | some cid =>
      if cid ≠ 0 then
        { s with canvas := mpl_disconnect_motion s.canvas cid, id_drag := none }
      else s
  | none => s

/-- `panhandler.press` (lines 237-251): on a non-matching button, cancel;
otherwise reset `_xypress` and, for every pannable axes, capture it and
connect a `motion_notify_event` listener, storing the (last) id in
`_id_drag`.  The external `a.start_pan` call has no observable effect on
this state. -/
def panhandler_press (s : PanState) (ev : PanEvent) : PanState :=
  if ev.button ≠ s.button then panhandler_cancel_action s
  else
    (List.range ev.pannable.length).foldl
      (fun st i =>
        if ev.pannable.getD i false then
          let cc := mpl_connect_motion st.canvas
          { st with canvas := cc.1, xypress := st.xypress ++ [i], id_drag := some cc.2 }
        else st)
      { s with xypress := [] }

/-- `panhandler.release` (lines 253-262): `_cancel_action()`, then an
unconditional `mpl_disconnect(self._id_drag)` (a no-op on `None`), then
`end_pan` over `_xypress` — which `_cancel_action` has just emptied, so the
loop body never runs — and a final `_cancel_action()` on both the empty and
the non-empty branch. -/
def panhandler_release (s : PanState) : PanState :=
  let s1 := panhandler_cancel_action s
  let s2 := { s1 with canvas := match s1.id_drag with
                                | none => s1.canvas
                                | some cid => mpl_disconnect_motion s1.canvas cid }
  -- `for a, _ind in self._xypress: a.end_pan()` — `s2.xypress = []` here.
  if s2.xypress.isEmpty then panhandler_cancel_action s2 else panhandler_cancel_action s2

/-- C4.  With two pannable axes under the cursor at press, `press` connects
two `motion_notify_event` listeners (ids 2 and 3) but `_id_drag` remembers
only the last; `release` therefore disconnects only id 3 and leaves id 2
registered — a dangling drag-move listener, refuting the no-dangling part
of the claim.  Release itself succeeds, and a repeated release (cancel with
no active handles) is safe and changes nothing. -/
theorem C4_release_leaves_dangling_listener :
    (panhandler_release (panhandler_press (panhandler_init ⟨0, []⟩ 3) ⟨3, [true, true]⟩)
        ).canvas.motion = [2] ∧
    panhandler_release (panhandler_release
        (panhandler_press (panhandler_init ⟨0, []⟩ 3) ⟨3, [true, true]⟩)) =
      panhandler_release (panhandler_press (panhandler_init ⟨0, []⟩ 3) ⟨3, [true, true]⟩) := by
  constructor <;> decide

/-! ## Mask/overlay store (`class image_segmenter`, lines 277-364)

The pixel grid is an arbitrary index type `P`; numpy boolean-mask
assignment `arr[bool_mask] = v` becomes a pointwise update.  Mask entries
are `ℚ` (the seed mask is caller-supplied numeric data; the class ids
written by `_onselect` are integers). -/

/-- An RGBA color, channels as rationals. -/
structure RGBA where
  r : ℚ
  g : ℚ
  b : ℚ
  a : ℚ
deriving DecidableEq, Repr

/-- The fully transparent entry `[0, 0, 0, 0]` written for unlabeled
pixels (lines 326 and 358); also the value `np.zeros` initializes the
overlay buffer with (line 321). -/
def transparent : RGBA := ⟨0, 0, 0, 0⟩

/-- `self.mask_colors[:,-1] = self.mask_alpha` (line 312): overwrite every
class color's alpha channel with the configured mask alpha. -/
def set_mask_alpha (colors : List RGBA) (alpha : ℚ) : List RGBA :=
  colors.map fun c => { c with a := alpha }

/-- Python/numpy indexing into the first axis of `self.mask_colors`:
a negative index counts from the end; an index out of `[-len, len)` raises
`IndexError`, modelled by `none`. -/
def pyGet {α : Type} (l : List α) (i : ℤ) : Option α :=
  let j : ℤ := if i < 0 then i + l.length else i
  if h : 0 ≤ j ∧ j < (l.length : ℤ) then some (l.get ⟨j.toNat, by omega⟩) else none

/-- The mutable per-pixel state of the store: `self.mask` and
`self._overlay` over a pixel index type `P`. -/
@[ext]
structure SegState (P : Type) where
  mask : P → ℚ
  overlay : P → RGBA

/-- The outcome of one `image_segmenter._onselect` call: whether the call
raised (`IndexError` from the color lookup at line 361), and the store
state at the moment the handler returned or the exception propagated. -/
structure SelectResult (P : Type) where
  raised : Bool
  state : SegState P

/-- `image_segmenter._onselect` (lines 352-364) with the rasterized
membership mask (`self.indices`) abstracted as `member`.  The erase branch
(lines 356-358) zeroes the mask and blanks the overlay on the selected
pixels and cannot raise.  The paint branch first executes the mask
assignment of line 360, then evaluates
`self.mask_colors[self.current_class-1]` at line 361: when that lookup
raises `IndexError` (`current_class - 1` outside Python's index range),
the handler aborts with the mask already mutated and the overlay
untouched; otherwise the overlay is updated as well. -/
def onselect {P : Type} (mask_colors : List RGBA) (erasing : Bool) (current_class : ℤ)
    (member : P → Bool) (s : SegState P) : SelectResult P :=
  if erasing then
    ⟨false, ⟨fun p => if member p then 0 else s.mask p,
             fun p => if member p then transparent else s.overlay p⟩⟩
  else
    let painted : P → ℚ := fun p => if member p then (current_class : ℚ) else s.mask p
    match pyGet mask_colors (current_class - 1) with
    | none => ⟨true, ⟨painted, s.overlay⟩⟩
    | some c => ⟨false, ⟨painted, fun p => if member p then c else s.overlay p⟩⟩

/-- The error path is observable: with one class, painting class id 5
raises, yet the mask write of line 360 persists while the overlay stays
untouched. -/
lemma onselect_error_keeps_mask_write :
    onselect [⟨1, 0, 0, 3/4⟩] false 5 (fun _ : Fin 1 => true)
        ⟨fun _ => 0, fun _ => transparent⟩ =
      ⟨true, ⟨fun _ => ((5 : ℤ) : ℚ), fun _ => transparent⟩⟩ := rfl

/-- The constructor loop building `self._overlay` from the seed mask
(lines 321-328): the buffer starts as `np.zeros((*shape, 4))` (all
transparent) and, for `i in range(nclasses+1)`, the pixels with
`mask == i` are set to `[0,0,0,0]` for `i == 0` and to
`self.mask_colors[i-1]` otherwise.  `none` models the `IndexError` raised
when the color table is shorter than `nclasses`. -/
def init_overlay {P : Type} (mask_colors : List RGBA) (nclasses : ℕ) (mask : P → ℚ) :
    Option (P → RGBA) :=
  (List.range (nclasses + 1)).foldl
    (fun acc (i : ℕ) => acc.bind fun ov =>
      if i = 0 then some (fun p => if mask p = (i : ℚ) then transparent else ov p)
      else (pyGet mask_colors ((i : ℤ) - 1)).map fun c =>
             fun p => if mask p = (i : ℚ) then c else ov p)
    (some fun _ => transparent)

/-- One `_onselect` invocation as recorded by the segmentation session: the
`erasing` flag, the `current_class` in force, and the rasterized
membership mask of the completed lasso. -/
structure SelectOp (P : Type) where
  erasing : Bool
  cls : ℤ
  member : P → Bool

/-- A sequence of `_onselect` invocations: each callback runs on the state
the previous one left behind; a raised `IndexError` is fatal only for the
operation that raised it (spec §7) — its partial mask write persists and
the session keeps dispatching events.  Returns whether any call of the
history raised, together with the final store state. -/
def run_selects {P : Type} (mask_colors : List RGBA) :
    List (SelectOp P) → SegState P → Bool × SegState P
  | [], s => (false, s)
  | op :: ops, s =>
      let r := onselect mask_colors op.erasing op.cls op.member s
      let rest := run_selects mask_colors ops r.state
      (r.raised || rest.1, rest.2)

/-- C9.  The erase branch of `_onselect` never reads `current_class`: from
the same state with the same membership mask, erasing with any two class
ids yields identical mask and overlay states. -/
theorem C9_erase_ignores_current_class {P : Type} (mask_colors : List RGBA)
    (cls₁ cls₂ : ℤ) (member : P → Bool) (s : SegState P) :
    onselect mask_colors true cls₁ member s = onselect mask_colors true cls₂ member s := rfl

/-- `pyGet` raises exactly when the index is at or beyond the length, or
still negative after adding the length. -/
lemma pyGet_eq_none_iff {α : Type} (l : List α) (i : ℤ) :
    pyGet l i = none ↔ ((l.length : ℤ) ≤ i ∨ i + (l.length : ℤ) < 0) := by
  simp only [pyGet]
  split_ifs with hneg h h <;> simp_all <;> omega

/-- A successful `pyGet` returns an element of the list. -/
lemma pyGet_mem {α : Type} {l : List α} {i : ℤ} {c : α} (h : pyGet l i = some c) :
    c ∈ l := by
  simp only [pyGet] at h
  split_ifs at h
  all_goals (rw [← Option.some.inj h]; exact List.get_mem _ _ _)

/-- A `pyGet` at a nonnegative in-range index is a plain list lookup. -/
lemma pyGet_of_nonneg {α : Type} (l : List α) (i : ℤ) (h0 : 0 ≤ i)
    (hlt : i < (l.length : ℤ)) :
    pyGet l i = some (l.get ⟨i.toNat, by omega⟩) := by
  simp only [pyGet, if_neg (not_lt.2 h0)]
  rw [dif_pos ⟨h0, hlt⟩]

/-- C6 counterexample.  Painting with class id `0` — outside `[1, nclasses]`
for `nclasses = 1` — does not fail: `self.mask_colors[-1]` is valid Python
negative indexing (the last color), so `_onselect` completes normally. -/
theorem C6_counterexample_class_zero_paints :
    (onselect [⟨1, 0, 0, 3/4⟩] false 0 (fun _ : Fin 1 => true)
        ⟨fun _ => 0, fun _ => transparent⟩).raised = false := rfl

/-- C6 (amended).  Completing a non-erasing lasso fails with an
`IndexError` exactly when `current_class` is above `nclasses` or below
`1 - nclasses`; class ids in `[1 - nclasses, 0]` do not fail (Python
negative indexing silently selects a color from the end of the table), and
class ids in `[1, nclasses]` never fail. -/
theorem C6_paint_error_iff_index_out_of_pyrange {P : Type} (mask_colors : List RGBA)
    (nclasses : ℕ) (hlen : mask_colors.length = nclasses) (cls : ℤ)
    (member : P → Bool) (s : SegState P) :
    (onselect mask_colors false cls member s).raised = true ↔
      ((nclasses : ℤ) < cls ∨ cls < 1 - (nclasses : ℤ)) := by
  have h := pyGet_eq_none_iff mask_colors (cls - 1)
  simp only [onselect, Bool.false_eq_true, if_false]
  cases hpg : pyGet mask_colors (cls - 1) with
  | none =>
      have hc := h.mp hpg
      simp only [hlen] at hc
      simpa using by omega
  | some c =>
      have hc : ¬ ((mask_colors.length : ℤ) ≤ cls - 1 ∨ cls - 1 + (mask_colors.length : ℤ) < 0) :=
        fun hcond => by rw [h.mpr hcond] at hpg; exact Option.noConfusion hpg
      simp only [hlen] at hc
      simpa using by omega

/-- Witness for `C6_paint_error_iff_index_out_of_pyrange`: with one class
and class id 2, painting raises. -/
theorem C6_paint_error_iff_witness :
    (onselect [⟨1, 0, 0, 3/4⟩] false 2 (fun _ : Fin 1 => true)
        ⟨fun _ => 0, fun _ => transparent⟩).raised = true ↔
      ((1 : ℤ) < 2 ∨ (2 : ℤ) < 1 - 1) :=
  C6_paint_error_iff_index_out_of_pyrange [⟨1, 0, 0, 3/4⟩] 1 rfl 2
    (fun _ : Fin 1 => true) ⟨fun _ => 0, fun _ => transparent⟩

/-- C3 counterexample.  Paint-then-erase does not restore the prior state
when the selected pixels were already labeled: a single pixel carrying
class 2 (green overlay) is painted with class 1 and then erased, ending
unlabeled and transparent rather than restored to class 2. -/
theorem C3_counterexample_erase_forgets_prior_label :
    (onselect [⟨1, 0, 0, 3/4⟩, ⟨0, 1, 0, 3/4⟩] true 1 (fun _ : Fin 1 => true)
        (onselect [⟨1, 0, 0, 3/4⟩, ⟨0, 1, 0, 3/4⟩] false 1 (fun _ : Fin 1 => true)
          ⟨fun _ => 2, fun _ => ⟨0, 1, 0, 3/4⟩⟩).state).state ≠
      ⟨fun _ => 2, fun _ => ⟨0, 1, 0, 3/4⟩⟩ := by
  intro h
  rw [show (onselect [⟨1, 0, 0, 3/4⟩, ⟨0, 1, 0, 3/4⟩] true 1 (fun _ : Fin 1 => true)
        (onselect [⟨1, 0, 0, 3/4⟩, ⟨0, 1, 0, 3/4⟩] false 1 (fun _ : Fin 1 => true)
          ⟨fun _ => 2, fun _ => ⟨0, 1, 0, 3/4⟩⟩).state).state =
      (⟨fun _ => 0, fun _ => transparent⟩ : SegState (Fin 1)) from rfl] at h
  have h2 := congrArg (fun s : SegState (Fin 1) => s.mask 0) h
  norm_num at h2

/-- C3 (amended).  Paint followed by erase with the same membership mask
restores the exact prior mask and overlay provided every selected pixel was
unlabeled (mask 0, transparent overlay) before the paint; pixels outside
the membership mask are untouched by both operations. -/
theorem C3_paint_erase_roundtrip_on_unlabeled {P : Type} (mask_colors : List RGBA)
    (cls : ℤ) (member : P → Bool) (s : SegState P) (c : RGBA)
    (hcls : pyGet mask_colors (cls - 1) = some c)
    (hpre : ∀ p, member p = true → s.mask p = 0 ∧ s.overlay p = transparent) :
    (onselect mask_colors false cls member s).raised = false ∧
    onselect mask_colors true cls member (onselect mask_colors false cls member s).state =
      ⟨false, s⟩ := by
  have h1 : onselect mask_colors false cls member s =
      ⟨false, ⟨fun p => if member p then (cls : ℚ) else s.mask p,
               fun p => if member p then c else s.overlay p⟩⟩ := by
    simp [onselect, hcls]
  refine ⟨by rw [h1], ?_⟩
  rw [h1]
  simp only [onselect, if_pos rfl]
  refine congrArg (SelectResult.mk false)
    (SegState.ext (funext fun p => ?_) (funext fun p => ?_))
  · dsimp only
    by_cases h : member p = true
    · rw [if_pos h]; exact (hpre p h).1.symm
    · rw [if_neg h, if_neg h]
  · dsimp only
    by_cases h : member p = true
    · rw [if_pos h]; exact (hpre p h).2.symm
    · rw [if_neg h, if_neg h]

/-- Witness for `C3_paint_erase_roundtrip_on_unlabeled`: one unlabeled
pixel, painted with class 1 and erased, is restored exactly. -/
theorem C3_paint_erase_roundtrip_witness :
    (onselect [⟨1, 0, 0, 3/4⟩] false 1 (fun _ : Fin 1 => true)
        ⟨fun _ => 0, fun _ => transparent⟩).raised = false ∧
    onselect [⟨1, 0, 0, 3/4⟩] true 1 (fun _ : Fin 1 => true)
        (onselect [⟨1, 0, 0, 3/4⟩] false 1 (fun _ : Fin 1 => true)
          ⟨fun _ => 0, fun _ => transparent⟩).state =
      ⟨false, ⟨fun _ => 0, fun _ => transparent⟩⟩ :=
  C3_paint_erase_roundtrip_on_unlabeled [⟨1, 0, 0, 3/4⟩] 1 (fun _ : Fin 1 => true)
    ⟨fun _ => 0, fun _ => transparent⟩ ⟨1, 0, 0, 3/4⟩ rfl
    (fun _ _ => ⟨rfl, rfl⟩)

/-- Unfolding one iteration of the constructor loop: processing classes
`0..n+1` is processing `0..n` and then the update for class `n + 1`. -/
lemma init_overlay_succ {P : Type} (mask_colors : List RGBA) (n : ℕ) (mask : P → ℚ) :
    init_overlay mask_colors (n + 1) mask =
      (init_overlay mask_colors n mask).bind fun ov =>
        (pyGet mask_colors (n : ℤ)).map fun c =>
          fun p => if mask p = ((n + 1 : ℕ) : ℚ) then c else ov p := by
  unfold init_overlay
  rw [List.range_succ, List.foldl_append, List.foldl_cons, List.foldl_nil]
  have hcast : ((n + 1 : ℕ) : ℤ) - 1 = (n : ℤ) := by push_cast; ring
  simp only [Nat.succ_ne_zero, if_false, hcast]

/-- What the constructor loop computes, pixelwise: seed value `0` gives a
transparent entry; seed value `i ∈ [1, nclasses]` gives the color-table
entry `i - 1`; a pixel matched by no loop iteration keeps the `np.zeros`
initialization, i.e. stays transparent. -/
lemma init_overlay_spec {P : Type} (mask_colors : List RGBA) (n : ℕ) (mask : P → ℚ)
    (ov : P → RGBA) (h : init_overlay mask_colors n mask = some ov) :
    ∀ p, (mask p = 0 → ov p = transparent) ∧
         (∀ i : ℕ, 1 ≤ i → i ≤ n → mask p = (i : ℚ) →
            pyGet mask_colors ((i : ℤ) - 1) = some (ov p)) ∧
         ((∀ i : ℕ, i ≤ n → mask p ≠ (i : ℚ)) → ov p = transparent) := by
  induction n generalizing ov with
  | zero =>
      have h0 : init_overlay mask_colors 0 mask =
          some (fun p => if mask p = ((0 : ℕ) : ℚ) then transparent else transparent) := rfl
      rw [h0] at h
      cases Option.some.inj h
      intro p
      refine ⟨fun _ => by dsimp only; split_ifs <;> rfl,
        fun i h1 h0 _ => absurd (h1.trans h0) (by omega),
        fun _ => by dsimp only; split_ifs <;> rfl⟩
  | succ n ih =>
      rw [init_overlay_succ] at h
      cases hprev : init_overlay mask_colors n mask with
      | none => rw [hprev] at h; exact absurd h (by simp)
      | some ov_n =>
          rw [hprev] at h
          cases hpg : pyGet mask_colors (n : ℤ) with
          | none => rw [hpg] at h; exact absurd h (by simp)
          | some c =>
              rw [hpg] at h
              cases Option.some.inj h
              intro p
              dsimp only
              obtain ⟨ih1, ih2, ih3⟩ := ih ov_n hprev p
              have hne0 : ((n + 1 : ℕ) : ℚ) ≠ 0 := by
                exact_mod_cast (Nat.succ_ne_zero n)
              refine ⟨?_, ?_, ?_⟩
              · intro hm0
                rw [if_neg (by rw [hm0]; exact fun hh => hne0 hh.symm)]
                exact ih1 hm0
              · intro i h1 hle hmi
                rcases Nat.lt_or_ge i (n + 1) with hlt | hge
                · have hne : mask p ≠ ((n + 1 : ℕ) : ℚ) := by
                    rw [hmi]
                    exact_mod_cast Nat.ne_of_lt hlt
                  rw [if_neg hne]
                  exact ih2 i h1 (by omega) hmi
                · have hi : i = n + 1 := by omega
                  subst hi
                  rw [if_pos hmi, show ((n + 1 : ℕ) : ℤ) - 1 = (n : ℤ) by push_cast; ring]
                  exact hpg
              · intro hall
                rw [if_neg (hall (n + 1) (le_refl _))]
                exact ih3 fun i hi => hall i (by omega)

/-- When the color table has at least `nclasses` entries (as the default
palettes guarantee), the constructor loop completes without error. -/
lemma init_overlay_isSome {P : Type} (mask_colors : List RGBA) (mask : P → ℚ) :
    ∀ n : ℕ, n ≤ mask_colors.length → ∃ ov, init_overlay mask_colors n mask = some ov := by
  intro n
  induction n with
  | zero =>
      intro _
      exact ⟨_, rfl⟩
  | succ n ih =>
      intro hlen
      obtain ⟨ov, hov⟩ := ih (by omega)
      rw [init_overlay_succ, hov]
      rw [pyGet_of_nonneg mask_colors (n : ℤ) (by omega) (by exact_mod_cast hlen)]
      exact ⟨_, rfl⟩

/-- C10.  With a caller-supplied seed mask, the constructor computes the
initial overlay only for pixels whose seed value is an integer in
`[0, nclasses]`: any pixel whose seed value matches no loop iteration is
simply never written, keeping its `np.zeros` (fully transparent) entry, and
no error is raised — even though such a pixel's mask value is nonzero. -/
theorem C10_out_of_range_seed_is_transparent {P : Type} (mask_colors : List RGBA)
    (nclasses : ℕ) (hlen : nclasses ≤ mask_colors.length) (mask : P → ℚ) :
    ∃ ov, init_overlay mask_colors nclasses mask = some ov ∧
      ∀ p, (∀ i : ℕ, i ≤ nclasses → mask p ≠ (i : ℚ)) → ov p = transparent := by
  obtain ⟨ov, hov⟩ := init_overlay_isSome mask_colors mask nclasses hlen
  exact ⟨ov, hov, fun p hout => (init_overlay_spec mask_colors nclasses mask ov hov p).2.2 hout⟩

/-- Witness for `C10_out_of_range_seed_is_transparent`: `nclasses = 1`, a
one-pixel seed mask holding `5/2` (not an integer in `[0, 1]`, and
nonzero): the overlay entry is transparent and no error occurs. -/
theorem C10_out_of_range_seed_witness :
    ∃ ov, init_overlay [⟨1, 0, 0, 3/4⟩] 1 (fun _ : Fin 1 => (5/2 : ℚ)) = some ov ∧
      ∀ p, (∀ i : ℕ, i ≤ 1 → (5/2 : ℚ) ≠ (i : ℚ)) → ov p = transparent :=
  C10_out_of_range_seed_is_transparent [⟨1, 0, 0, 3/4⟩] 1 (by norm_num)
    (fun _ : Fin 1 => (5/2 : ℚ))

/-- Every entry of `set_mask_alpha colors alpha` carries alpha `alpha`
(that is what line 312 enforces). -/
lemma mem_set_mask_alpha_a {colors : List RGBA} {alpha : ℚ} {c : RGBA}
    (h : c ∈ set_mask_alpha colors alpha) : c.a = alpha := by
  simp only [set_mask_alpha, List.mem_map] at h
  obtain ⟨d, _, rfl⟩ := h
  rfl

/-- The spec §3 invariant relating mask and overlay, as the structural core
used by C2: each pixel is either unlabeled and transparent, or labeled
`i + 1` with its overlay equal to color-table entry `i`. -/
def consistent_with {P : Type} (mask_colors : List RGBA) (s : SegState P) : Prop :=
  ∀ p, (s.mask p = 0 ∧ s.overlay p = transparent) ∨
       (∃ i : ℕ, s.mask p = (i : ℚ) + 1 ∧ pyGet mask_colors (i : ℤ) = some (s.overlay p))

/-- Under the spec §4.2 contract — erase, or paint with a class id in
`[1, nclasses]` against a color table of `nclasses` entries — one
`_onselect` call does not raise and preserves the mask/overlay
invariant. -/
lemma onselect_contract {P : Type} {mask_colors : List RGBA} {erasing : Bool}
    {cls : ℤ} {member : P → Bool} {s : SegState P}
    (hcls : erasing = false → 1 ≤ cls ∧ cls ≤ (mask_colors.length : ℤ))
    (hs : consistent_with mask_colors s) :
    (onselect mask_colors erasing cls member s).raised = false ∧
    consistent_with mask_colors (onselect mask_colors erasing cls member s).state := by
  cases erasing with
  | true =>
      have hres : onselect mask_colors true cls member s =
          ⟨false, ⟨fun p => if member p then 0 else s.mask p,
                   fun p => if member p then transparent else s.overlay p⟩⟩ := rfl
      rw [hres]
      refine ⟨rfl, ?_⟩
      intro p
      dsimp only
      by_cases hm : member p = true
      · exact Or.inl ⟨by rw [if_pos hm], by rw [if_pos hm]⟩
      · rw [if_neg hm, if_neg hm]
        exact hs p
  | false =>
      obtain ⟨h1, h2⟩ := hcls rfl
      obtain ⟨c, hpg⟩ : ∃ c, pyGet mask_colors (cls - 1) = some c :=
        ⟨_, pyGet_of_nonneg mask_colors (cls - 1) (by omega) (by omega)⟩
      have hres : onselect mask_colors false cls member s =
          ⟨false, ⟨fun p => if member p then (cls : ℚ) else s.mask p,
                   fun p => if member p then c else s.overlay p⟩⟩ := by
        simp [onselect, hpg]
      rw [hres]
      refine ⟨rfl, ?_⟩
      intro p
      dsimp only
      by_cases hm : member p = true
      · refine Or.inr ⟨(cls - 1).toNat, ?_, ?_⟩
        · rw [if_pos hm]
          have hz : (((cls - 1).toNat : ℤ) : ℚ) = (cls : ℚ) - 1 := by
            rw [Int.toNat_of_nonneg (by omega)]
            push_cast
            ring
          rw [show (((cls - 1).toNat : ℕ) : ℚ) = (((cls - 1).toNat : ℤ) : ℚ) by push_cast; ring,
            hz]
          ring
        · rw [if_pos hm, Int.toNat_of_nonneg (by omega : (0:ℤ) ≤ cls - 1)]
          exact hpg
      · rw [if_neg hm, if_neg hm]
        exact hs p

/-- A history of contract-respecting `_onselect` calls never raises and
preserves the invariant. -/
lemma run_selects_contract {P : Type} {mask_colors : List RGBA}
    {ops : List (SelectOp P)} {s : SegState P}
    (hops : ∀ op ∈ ops, op.erasing = false → 1 ≤ op.cls ∧ op.cls ≤ (mask_colors.length : ℤ))
    (hs : consistent_with mask_colors s) :
    (run_selects mask_colors ops s).1 = false ∧
    consistent_with mask_colors (run_selects mask_colors ops s).2 := by
  induction ops generalizing s with
  | nil => exact ⟨rfl, hs⟩
  | cons op ops ih =>
      obtain ⟨hr, hc⟩ := onselect_contract (hops op (List.mem_cons_self op ops)) hs
      obtain ⟨hr2, hc2⟩ := ih (fun o ho => hops o (List.mem_cons_of_mem op ho)) hc
      simp only [run_selects]
      exact ⟨by rw [hr, hr2]; rfl, hc2⟩

/-- C2.  After construction from a seed mask whose values are integers in
`[0, nclasses]`, and along every history of `_onselect` calls respecting
the spec §4.2 contract (erase, or paint with a class id in
`[1, nclasses]`), no call raises — so every call completes — and at every
point every pixel's overlay is transparent iff its mask is 0, a labeled
pixel's overlay being the color-table entry `mask[p] - 1` with alpha equal
to the configured mask alpha.  The upper class-id bound is part of the
contract because a paint with a larger id writes the mask (line 360)
before the color lookup (line 361) raises; the hypothesis `alpha ≠ 0`
excludes the degenerate configuration in which painted entries would
themselves equal `[0,0,0,0]`. -/
theorem C2_overlay_iff_mask (P : Type) (base_colors : List RGBA) (alpha : ℚ)
    (nclasses : ℕ) (seed : P → ℚ) (ops : List (SelectOp P)) (ov : P → RGBA)
    (halpha : alpha ≠ 0)
    (hlen : base_colors.length = nclasses)
    (hseed : ∀ p, ∃ i : ℕ, i ≤ nclasses ∧ seed p = (i : ℚ))
    (hops : ∀ op ∈ ops, op.erasing = false → 1 ≤ op.cls ∧ op.cls ≤ (nclasses : ℤ))
    (hinit : init_overlay (set_mask_alpha base_colors alpha) nclasses seed = some ov) :
    (run_selects (set_mask_alpha base_colors alpha) ops ⟨seed, ov⟩).1 = false ∧
    ∀ p,
      ((run_selects (set_mask_alpha base_colors alpha) ops ⟨seed, ov⟩).2.overlay p =
          transparent ↔
        (run_selects (set_mask_alpha base_colors alpha) ops ⟨seed, ov⟩).2.mask p = 0) ∧
      ((run_selects (set_mask_alpha base_colors alpha) ops ⟨seed, ov⟩).2.mask p ≠ 0 →
        ∃ i : ℕ,
          (run_selects (set_mask_alpha base_colors alpha) ops ⟨seed, ov⟩).2.mask p =
            (i : ℚ) + 1 ∧
          pyGet (set_mask_alpha base_colors alpha) (i : ℤ) =
            some ((run_selects (set_mask_alpha base_colors alpha) ops ⟨seed, ov⟩).2.overlay p) ∧
          ((run_selects (set_mask_alpha base_colors alpha) ops ⟨seed, ov⟩).2.overlay p).a =
            alpha) := by
  have hlen2 : ((set_mask_alpha base_colors alpha).length : ℤ) = (nclasses : ℤ) := by
    simp [set_mask_alpha, hlen]
  have hcons0 : consistent_with (set_mask_alpha base_colors alpha)
      (⟨seed, ov⟩ : SegState P) := by
    intro p
    obtain ⟨i, hle, hip⟩ := hseed p
    have hspec := init_overlay_spec _ _ _ _ hinit p
    cases i with
    | zero =>
        have hm0 : seed p = 0 := by simpa using hip
        exact Or.inl ⟨hm0, hspec.1 hm0⟩
    | succ j =>
        refine Or.inr ⟨j, ?_, ?_⟩
        · show seed p = (j : ℚ) + 1
          rw [hip]; push_cast; ring
        · have hj := hspec.2.1 (j + 1) (by omega) hle hip
          rwa [show ((j + 1 : ℕ) : ℤ) - 1 = (j : ℤ) by push_cast; ring] at hj
  obtain ⟨hraise, hcons⟩ := run_selects_contract
    (fun op hop he => by
      obtain ⟨a, b⟩ := hops op hop he
      exact ⟨a, by rw [hlen2]; exact b⟩)
    hcons0
  refine ⟨hraise, ?_⟩
  intro p
  rcases hcons p with ⟨hm, ho⟩ | ⟨i, hm, hpg⟩
  · exact ⟨⟨fun _ => hm, fun _ => ho⟩, fun hne => absurd hm hne⟩
  · have ha := mem_set_mask_alpha_a (pyGet_mem hpg)
    have hpos : (0 : ℚ) < (i : ℚ) + 1 := by positivity
    have hmne : (run_selects (set_mask_alpha base_colors alpha) ops ⟨seed, ov⟩).2.mask p ≠ 0 := by
      rw [hm]; exact hpos.ne'
    have hone : (run_selects (set_mask_alpha base_colors alpha) ops ⟨seed, ov⟩).2.overlay p ≠
        transparent := by
      intro ht
      rw [ht] at ha
      exact halpha ha.symm
    exact ⟨⟨fun ht => absurd ht hone, fun h0 => absurd h0 hmne⟩,
      fun _ => ⟨i, hm, hpg, ha⟩⟩

/-- Witness for `C2_overlay_iff_mask`: one pixel, one class (red at alpha
3/4), zero seed, a single paint of class 1 over the whole pixel grid: the
history raises nothing and the painted pixel satisfies the invariant. -/
theorem C2_overlay_iff_mask_witness :
    (run_selects (set_mask_alpha [⟨1, 0, 0, 1⟩] (3/4))
        [⟨false, 1, fun _ => true⟩] ⟨fun _ : Fin 1 => 0, fun _ => transparent⟩).1 = false ∧
    (((SegState.mk (P := Fin 1) (fun _ => 1) (fun _ => ⟨1, 0, 0, 3/4⟩)).overlay 0 =
          transparent ↔
        (SegState.mk (P := Fin 1) (fun _ => 1) (fun _ => ⟨1, 0, 0, 3/4⟩)).mask 0 = 0) ∧
      ((SegState.mk (P := Fin 1) (fun _ => 1) (fun _ => ⟨1, 0, 0, 3/4⟩)).mask 0 ≠ 0 →
        ∃ i : ℕ,
          (SegState.mk (P := Fin 1) (fun _ => 1) (fun _ => ⟨1, 0, 0, 3/4⟩)).mask 0 =
            (i : ℚ) + 1 ∧
          pyGet (set_mask_alpha [⟨1, 0, 0, 1⟩] (3/4)) (i : ℤ) =
            some ((SegState.mk (P := Fin 1) (fun _ => 1) (fun _ => ⟨1, 0, 0, 3/4⟩)).overlay 0) ∧
          ((SegState.mk (P := Fin 1) (fun _ => 1) (fun _ => ⟨1, 0, 0, 3/4⟩)).overlay 0).a =
            3/4)) :=
  ⟨(C2_overlay_iff_mask (Fin 1) [⟨1, 0, 0, 1⟩] (3/4) 1 (fun _ => 0)
      [⟨false, 1, fun _ => true⟩] (fun _ => transparent) (by norm_num) rfl
      (fun p => ⟨0, by omega, rfl⟩)
      (by
        intro op hop
        rw [List.mem_singleton] at hop
        subst hop
        exact fun _ => ⟨le_refl 1, le_refl 1⟩)
      rfl).1,
   (C2_overlay_iff_mask (Fin 1) [⟨1, 0, 0, 1⟩] (3/4) 1 (fun _ => 0)
      [⟨false, 1, fun _ => true⟩] (fun _ => transparent) (by norm_num) rfl
      (fun p => ⟨0, by omega, rfl⟩)
      (by
        intro op hop
        rw [List.mem_singleton] at hop
        subst hop
        exact fun _ => ⟨le_refl 1, le_refl 1⟩)
      rfl).2 0⟩

unseal Rat.mul Rat.add Rat.sub Rat.inv in
/-- C2 counterexample.  The claim fails for a construction the code
permits: seeding the mask of a one-pixel image with `5/2` (not an integer
in `[0, nclasses]`) leaves the overlay entry transparent while the mask
entry is nonzero, so "overlay transparent iff mask 0" is violated right
after construction. -/
theorem C2_counterexample_bad_seed :
    ∃ ov, init_overlay (set_mask_alpha [⟨1, 0, 0, 1⟩] (3/4)) 1
        (fun _ : Fin 1 => (5/2 : ℚ)) = some ov ∧
      ¬(((⟨fun _ => (5/2 : ℚ), ov⟩ : SegState (Fin 1)).overlay 0 = transparent) ↔
        ((⟨fun _ => (5/2 : ℚ), ov⟩ : SegState (Fin 1)).mask 0 = 0)) := by
  refine ⟨fun _ => transparent, rfl, fun hiff => ?_⟩
  have h := hiff.mp rfl
  norm_num at h

/-! ## Polygon rasterizer

The source delegates rasterization to
`Path(verts).contains_points(self.pix, radius=0)` (lines 354-355), an
external matplotlib routine whose code is not part of this repository.
It is therefore modelled from the spec (§4.1). -/

/-- A point in data coordinates. -/
abbrev Pt := ℚ × ℚ

/-- The edges of the closed polygon: consecutive vertex pairs, with the
first and last vertices auto-connected (spec §4.1). -/
def polyEdges (vs : List Pt) : List (Pt × Pt) :=
  match vs with
  | [] => []
  | v0 :: _ => vs.zip (vs.tail ++ [v0])

/-- Twice the signed (shoelace) area of the closed polygon; the spec's
"zero area" degeneracy test. -/
def polyArea2 (vs : List Pt) : ℚ :=
  ((polyEdges vs).map fun e => e.1.1 * e.2.2 - e.2.1 * e.1.2).sum

/-- Whether `t` lies on the closed segment from `a` to `b`: collinear with
the endpoints and between them on both coordinates. -/
def onSegment (t a b : Pt) : Bool :=
  decide ((b.1 - a.1) * (t.2 - a.2) = (b.2 - a.2) * (t.1 - a.1)) &&
  (decide (a.1 ≤ t.1) && decide (t.1 ≤ b.1) || decide (b.1 ≤ t.1) && decide (t.1 ≤ a.1)) &&
  (decide (a.2 ≤ t.2) && decide (t.2 ≤ b.2) || decide (b.2 ≤ t.2) && decide (t.2 ≤ a.2))

/-- Whether the horizontal ray from `t` in the `+x` direction crosses the
edge from `a` to `b` (half-open in `y` so shared vertices are counted
once). -/
def raycast (t a b : Pt) : Bool :=
  (decide (a.2 ≤ t.2) && decide (t.2 < b.2) || decide (b.2 ≤ t.2) && decide (t.2 < a.2)) &&
  decide (t.1 < a.1 + (b.1 - a.1) * (t.2 - a.2) / (b.2 - a.2))

/-- Modelled from the spec: the polygon rasterizer
(`Path(verts).contains_points(..., radius=0)`, whose implementation is not
under `src/`), per spec §4.1 — a deterministic even-odd (ray-crossing)
point-in-polygon rule over the closed polygon, boundary-inclusive ("inside
or on the polygon boundary"), with degenerate polygons (fewer than 3
vertices, or zero area) yielding `false` everywhere rather than an error. -/
def containsQ (vs : List Pt) (t : Pt) : Bool :=
  if vs.length < 3 ∨ polyArea2 vs = 0 then false
  else ((polyEdges vs).countP fun e => raycast t e.1 e.2) % 2 == 1 ||
       ((polyEdges vs).any fun e => onSegment t e.1 e.2)

/-- The lasso vertices of the spec §8 scenario. -/
def squareVerts : List Pt := [(2, 2), (7, 2), (7, 7), (2, 7)]

/-- The membership mask `self.indices` for a 10×10 image: the pixel at
`(row r, column c)` is tested at data point `(x = c, y = r)`, matching the
`self.pix` table built at lines 342-345 and the reshape at line 355. -/
def squareMember (p : Fin 10 × Fin 10) : Bool :=
  containsQ squareVerts (((p.2 : ℕ) : ℚ), ((p.1 : ℕ) : ℚ))

/-- The store state after painting the square scenario onto a blank
10×10 mask with class 1. -/
def paintedSquareState : SegState (Fin 10 × Fin 10) :=
  ⟨fun p => if squareMember p then ((1 : ℤ) : ℚ) else 0,
   fun p => if squareMember p then ⟨1, 0, 0, 3/4⟩ else transparent⟩

unseal Rat.mul Rat.add Rat.sub Rat.inv in
/-- C5.  (1) Paint writes the class id exactly on the membership-true
pixels and leaves both mask and overlay untouched on every
membership-false pixel.  (2) In the 10×10 square-lasso scenario
(vertices `[(2,2),(7,2),(7,7),(2,7)]`, `current_class = 1` on a blank
mask) exactly the pixels with `2 ≤ x ≤ 7` and `2 ≤ y ≤ 7` get mask value
1 and all others keep 0. -/
theorem C5_paint_frame_effect_and_square_scenario :
    (∀ (P : Type) (mask_colors : List RGBA) (cls : ℤ) (member : P → Bool)
       (s s' : SegState P) (c : RGBA),
       pyGet mask_colors (cls - 1) = some c →
       onselect mask_colors false cls member s = ⟨false, s'⟩ →
       ∀ p, (member p = true → s'.mask p = (cls : ℚ)) ∧
            (member p = false → s'.mask p = s.mask p ∧ s'.overlay p = s.overlay p)) ∧
    (∀ s' : SegState (Fin 10 × Fin 10),
       onselect [⟨1, 0, 0, 3/4⟩] false 1 squareMember ⟨fun _ => 0, fun _ => transparent⟩ =
         ⟨false, s'⟩ →
       ∀ r c : Fin 10,
         s'.mask (r, c) =
           if 2 ≤ (c : ℕ) ∧ (c : ℕ) ≤ 7 ∧ 2 ≤ (r : ℕ) ∧ (r : ℕ) ≤ 7 then 1 else 0) := by
  constructor
  · intro P mask_colors cls member s s' c hpg honsel
    simp only [onselect, Bool.false_eq_true, if_false, hpg] at honsel
    injection honsel with hfl hst
    cases hst
    intro p
    dsimp only
    constructor
    · intro hm
      rw [if_pos hm]
    · intro hm
      rw [if_neg (by rw [hm]; exact Bool.false_ne_true), if_neg (by rw [hm]; exact Bool.false_ne_true)]
      exact ⟨rfl, rfl⟩
  · intro s' honsel
    have hs' : s' = paintedSquareState := by
      have heq : onselect [⟨1, 0, 0, 3/4⟩] false 1 squareMember
          (⟨fun _ => 0, fun _ => transparent⟩ : SegState (Fin 10 × Fin 10)) =
          ⟨false, paintedSquareState⟩ := rfl
      rw [heq] at honsel
      injection honsel with hfl hst
      exact hst.symm
    subst hs'
    decide

/-- Witness for `C5_paint_frame_effect_and_square_scenario`: the frame
effect at a one-pixel grid, and the scenario instantiated at pixel
`(2, 2)`. -/
theorem C5_paint_frame_effect_witness :
    ((squareMember ((2 : Fin 10), (2 : Fin 10)) = true →
        paintedSquareState.mask (2, 2) = ((1 : ℤ) : ℚ)) ∧
      (squareMember ((2 : Fin 10), (2 : Fin 10)) = false →
        paintedSquareState.mask (2, 2) =
          (SegState.mk (P := Fin 10 × Fin 10) (fun _ => 0) (fun _ => transparent)).mask (2, 2) ∧
        paintedSquareState.overlay (2, 2) =
          (SegState.mk (P := Fin 10 × Fin 10) (fun _ => 0) (fun _ => transparent)).overlay (2, 2))) ∧
    paintedSquareState.mask (2, 2) =
      (if 2 ≤ ((2 : Fin 10) : ℕ) ∧ ((2 : Fin 10) : ℕ) ≤ 7 ∧ 2 ≤ ((2 : Fin 10) : ℕ) ∧
          ((2 : Fin 10) : ℕ) ≤ 7 then 1 else 0) :=
  ⟨C5_paint_frame_effect_and_square_scenario.1 (Fin 10 × Fin 10) [⟨1, 0, 0, 3/4⟩] 1
      squareMember ⟨fun _ => 0, fun _ => transparent⟩ paintedSquareState ⟨1, 0, 0, 3/4⟩
      rfl rfl ((2 : Fin 10), (2 : Fin 10)),
   C5_paint_frame_effect_and_square_scenario.2 paintedSquareState rfl 2 2⟩

/-- C8.  A degenerate lasso polygon — fewer than 3 vertices, or zero
(shoelace) area, e.g. all vertices duplicated at one point — rasterizes to
the all-false membership mask without error, and the subsequent paint or
erase leaves the store exactly unchanged. -/
theorem C8_degenerate_polygon_marks_nothing (vs : List Pt)
    (hdeg : vs.length < 3 ∨ polyArea2 vs = 0) :
    (∀ t, containsQ vs t = false) ∧
    (∀ (P : Type) (coords : P → Pt) (mask_colors : List RGBA) (cls : ℤ) (c : RGBA)
       (s : SegState P),
       pyGet mask_colors (cls - 1) = some c →
       onselect mask_colors false cls (fun p => containsQ vs (coords p)) s = ⟨false, s⟩ ∧
       onselect mask_colors true cls (fun p => containsQ vs (coords p)) s = ⟨false, s⟩) := by
  have h1 : ∀ t, containsQ vs t = false := fun t => by
    simp only [containsQ, if_pos hdeg]
  refine ⟨h1, ?_⟩
  intro P coords mask_colors cls c s hpg
  constructor
  · simp only [onselect, Bool.false_eq_true, if_false, hpg]
    refine congrArg (SelectResult.mk false)
      (SegState.ext (funext fun p => ?_) (funext fun p => ?_)) <;>
      (dsimp only; rw [h1 (coords p)]; simp)
  · simp only [onselect, if_pos rfl]
    refine congrArg (SelectResult.mk false)
      (SegState.ext (funext fun p => ?_) (funext fun p => ?_)) <;>
      (dsimp only; rw [h1 (coords p)]; simp)

/-- Witness for `C8_degenerate_polygon_marks_nothing`: a two-vertex lasso
marks nothing — in particular not the midpoint of its segment — and paint
and erase through it change nothing on a one-pixel grid. -/
theorem C8_degenerate_polygon_witness :
    containsQ [(0, 0), (2, 2)] (1, 1) = false ∧
    (onselect [⟨1, 0, 0, 3/4⟩] false 1
        (fun p : Fin 1 => containsQ [(0, 0), (2, 2)] ((fun _ => ((1 : ℚ), (1 : ℚ))) p))
        ⟨fun _ => 0, fun _ => transparent⟩ =
      ⟨false, ⟨fun _ => 0, fun _ => transparent⟩⟩ ∧
     onselect [⟨1, 0, 0, 3/4⟩] true 1
        (fun p : Fin 1 => containsQ [(0, 0), (2, 2)] ((fun _ => ((1 : ℚ), (1 : ℚ))) p))
        ⟨fun _ => 0, fun _ => transparent⟩ =
      ⟨false, ⟨fun _ => 0, fun _ => transparent⟩⟩) :=
  ⟨(C8_degenerate_polygon_marks_nothing [(0, 0), (2, 2)] (Or.inl (by norm_num))).1 (1, 1),
   (C8_degenerate_polygon_marks_nothing [(0, 0), (2, 2)] (Or.inl (by norm_num))).2
     (Fin 1) (fun _ => ((1 : ℚ), (1 : ℚ))) [⟨1, 0, 0, 3/4⟩] 1 ⟨1, 0, 0, 3/4⟩
     ⟨fun _ => 0, fun _ => transparent⟩ rfl⟩

end MplInteractions
